import Mathlib

/-!
Verification of the tadpole differential-drive control software.

The numeric throttle-shaping functions of `MotorController` are embedded
polymorphically over a linear ordered field (Python float arithmetic is
modelled as exact arithmetic); the vector-level functions that use
`math.atan2` and `math.sqrt` are embedded over the reals.  Stateful
threads (`BatteryGuard.run`, `Gamepad.run`, `Tadpole.run`) are embedded
as explicit step functions over their state, consuming at each step the
values their reads would return.
-/

namespace Tadpole

section ThrottleShaper

variable {α : Type*} [LinearOrderedField α]

/-- `MotorController._assert_angle_within_range`: raises `ValueError` iff
`angle <= -180 or angle > 180`. -/
def assertAngleWithinRange (angle : α) : Except String Unit :=
  if angle ≤ -180 ∨ 180 < angle then
    Except.error ("Input angle is out of permitted range (-180;180]")
  else Except.ok ()

/-- The if/elif chain of `MotorController.calc_left_throttle_mod`; the Python
variable `throttle_modifier` stays `None` when no branch fires. -/
def leftModBranches (joystick_angle : α) : Option α :=
  if -180 < joystick_angle ∧ joystick_angle ≤ -90 then some (-1)
  else if -90 < joystick_angle ∧ joystick_angle < 0 then some (joystick_angle / 45 + 1)
  else if 0 ≤ joystick_angle ∧ joystick_angle ≤ 90 then some 1
  else if 90 < joystick_angle ∧ joystick_angle ≤ 180 then some (-joystick_angle / 45 + 3)
  else none

/-- The if/elif chain of `MotorController.calc_right_throttle_mod`. -/
def rightModBranches (joystick_angle : α) : Option α :=
  if -180 < joystick_angle ∧ joystick_angle < -90 then some (-joystick_angle / 45 - 3)
  else if -90 ≤ joystick_angle ∧ joystick_angle ≤ 0 then some (-1)
  else if 0 < joystick_angle ∧ joystick_angle < 90 then some (joystick_angle / 45 - 1)
  else if 90 ≤ joystick_angle ∧ joystick_angle ≤ 180 then some 1
  else none

/-- `MotorController.calc_left_throttle_mod`: assert the range, then the
piecewise four-band function. -/
def calc_left_throttle_mod (joystick_angle : α) : Except String (Option α) :=
  match assertAngleWithinRange joystick_angle with
  | Except.error e => Except.error e
  | Except.ok _ => Except.ok (leftModBranches joystick_angle)

/-- `MotorController.calc_right_throttle_mod`. -/
def calc_right_throttle_mod (joystick_angle : α) : Except String (Option α) :=
  match assertAngleWithinRange joystick_angle with
  | Except.error e => Except.error e
  | Except.ok _ => Except.ok (rightModBranches joystick_angle)

/-- Python 3 `round` on an exact value: round to the nearest integer,
ties to the even integer. -/
def roundHalfToEven [FloorRing α] (x : α) : ℤ :=
  let f := Int.floor x
  let frac := x - (f : α)
  if frac < 1 / 2 then f
  else if 1 / 2 < frac then f + 1
  else if Even f then f else f + 1

/-- The cubic `a - b*t + c*t^2 - d*t^3` of
`MotorController._apply_throttle_curve`, with `a = 0`, `b = 0.1666667`,
`c = 1.722222`, `d = 0.5555556`. -/
def throttle_curve_poly (t : α) : α :=
  0 - (1666667 / 10000000 : α) * t + (1722222 / 1000000 : α) * t ^ 2
    - (5555556 / 10000000 : α) * t ^ 3

/-- `MotorController._apply_throttle_curve`: the cubic, rounded with
Python `round` when the result leaves `[0, 1]`. -/
def apply_throttle_curve [FloorRing α] (throttle_modifier : α) : α :=
  let new_throttle_modifier := throttle_curve_poly throttle_modifier
  if ¬(0 ≤ new_throttle_modifier ∧ new_throttle_modifier ≤ 1) then
    ((roundHalfToEven new_throttle_modifier : ℤ) : α)
  else new_throttle_modifier

/-- `MotorController._apply_throttle_gate`. -/
def apply_throttle_gate (threshold input_throttle : α) : α :=
  if |input_throttle| < threshold then 0 else input_throttle

/-- `math.copysign x y`: magnitude of `x` with the sign of `y`
(a zero `y` counts as positive). -/
def copysign (x y : α) : α :=
  if y < 0 then -|x| else |x|

/-- `MotorController._apply_throttle_limiting`. -/
def apply_throttle_limiting (limit input_throttle : α) : α :=
  if |input_throttle| > limit then copysign limit input_throttle else input_throttle

/-- Whether an `Except` computation finished without raising. -/
def exceptIsOk {ε β : Type*} : Except ε β → Bool
  | Except.ok _ => true
  | Except.error _ => false

end ThrottleShaper

/-! ### Vector-level functions of `MotorController` (over the reals) -/

/-- `MotorController.calc_vector_angle`:
`math.degrees(math.atan2(y, x))`, with `atan2 y x` embedded as the
argument of the complex number `x + y*I`. -/
noncomputable def calc_vector_angle (input_vector : ℤ × ℤ) : ℝ :=
  Complex.arg ((input_vector.1 : ℝ) + (input_vector.2 : ℝ) * Complex.I) * 180 / Real.pi

/-- `MotorController.calc_normalized_vector_length` with
`MAX_ABS_AXIS_VALUE = 2 ^ 15`. -/
noncomputable def calc_normalized_vector_length (input_vector : ℤ × ℤ) : ℝ :=
  let length := Real.sqrt ((input_vector.1 : ℝ) ^ 2 + (input_vector.2 : ℝ) ^ 2)
  let normalized_length := length / 2 ^ 15
  if normalized_length > 1 then 1 else normalized_length

/-- The shaping configuration of a `MotorController` instance.
`throttle_gate_threshold` and `throttle_limit` are `Option`s because the
Python code skips the gate (resp. limit) stage when the attribute is
`None`. -/
structure MCConfig where
  enable_throttle_curve : Bool
  throttle_gate_threshold : Option ℝ
  throttle_scale : ℝ
  throttle_limit : Option ℝ

/-- The `MotorController.__init__` defaults: no curve, gate threshold 0.1,
scale 1.0, limit 1.0. -/
noncomputable def cfgDefault : MCConfig :=
  { enable_throttle_curve := false
    throttle_gate_threshold := some (1 / 10)
    throttle_scale := 1
    throttle_limit := some 1 }

/-- The `[Curve?]->[Gate?]->[Limit?]` stages of
`MotorController.handle_vector_input`, applied to the scaled throttle. -/
noncomputable def shapeStages (cfg : MCConfig) (throttle : ℝ) : ℝ :=
  let t1 := if cfg.enable_throttle_curve then apply_throttle_curve throttle else throttle
  let t2 := match cfg.throttle_gate_threshold with
    | some g => apply_throttle_gate g t1
    | none => t1
  match cfg.throttle_limit with
  | some l => apply_throttle_limiting l t2
  | none => t2

/-- `MotorController.handle_vector_input`: angle, per-side modifiers,
scaled length, shaping stages, and the two `change_throttle` arguments.
An out-of-range angle propagates the `ValueError`; a `None` modifier
(unreachable) yields `Except.ok none`, standing for the `TypeError` the
Python multiplication would raise. -/
noncomputable def handle_vector_input (cfg : MCConfig) (input_vector : ℤ × ℤ) :
    Except String (Option (ℝ × ℝ)) :=
  let angle := calc_vector_angle input_vector
  match calc_left_throttle_mod angle, calc_right_throttle_mod angle with
  | Except.error e, _ => Except.error e
  | Except.ok _, Except.error e => Except.error e
  | Except.ok lm, Except.ok rm =>
    let throttle := shapeStages cfg (cfg.throttle_scale * calc_normalized_vector_length input_vector)
    match lm, rm with
    | some l, some r => Except.ok (some (throttle * l, throttle * r))
    | _, _ => Except.ok none

/-! ### `BatteryGuard` (Safety Monitor) -/

/-- The state of `BatteryGuard` as the spec defines it: the debounced
`is_battery_ok` flag and the monotonic `_last_ok_time` timestamp.  (The
stored `_last_battery_state` reading is never read anywhere and is
omitted.) -/
structure BGState where
  is_battery_ok : Bool
  last_ok_time : ℚ
  deriving DecidableEq

/-- `BatteryGuard.__init__`: the flag starts `False` and the timer starts
at construction time `t0`. -/
def batteryGuardInit (t0 : ℚ) : BGState :=
  { is_battery_ok := false, last_ok_time := t0 }

/-- One iteration of the `BatteryGuard.run` loop, given the GPIO reading
and the value `now` that `time.time()` returns at this iteration;
`timeout` is `config.LOW_BATTERY_TIMEOUT`. -/
def batteryStep (timeout : ℚ) (s : BGState) (reading : ℕ) (now : ℚ) : BGState :=
  if reading = 1 then
    { is_battery_ok := true, last_ok_time := now }
  else if reading = 0 ∧ now - s.last_ok_time > timeout then
    { is_battery_ok := false, last_ok_time := s.last_ok_time }
  else s

/-- Folding `batteryStep` over a trace of `(reading, now)` samples. -/
def batteryRun (timeout : ℚ) (s : BGState) : List (ℕ × ℚ) → BGState
  | [] => s
  | p :: rest => batteryRun timeout (batteryStep timeout s p.1 p.2) rest

/-! ### `Gamepad` (Vector Source) -/

/-- A raw evdev input event. -/
structure GEvent where
  type : ℤ
  code : ℤ
  value : ℤ
  deriving DecidableEq

/-- `event.type in _TARGET_EVENT_TYPES and event.code in _TARGET_EVENT_CODES`
with `_TARGET_EVENT_TYPES = [3]` and `_TARGET_EVENT_CODES = [2, 5]`. -/
def eventMatches (e : GEvent) : Bool :=
  ([3] : List ℤ).contains e.type && ([2, 5] : List ℤ).contains e.code

/-- The mutable state of the `Gamepad.run` loop: the event counter and
`last_event_values` for codes 2 (right-stick x) and 5 (right-stick y),
both initialised to 0. -/
structure GPState where
  received_event_count : ℕ
  lastX : ℤ
  lastY : ℤ
  deriving DecidableEq

/-- One event of the `Gamepad.run` loop: the counter always advances; a
processed event rebases the value by `2 ** 15` into the matching axis slot
and publishes the current `(x, y)` vector into the queue. -/
def gamepadStep (accept_every_nth_event : ℕ) (s : GPState) (e : GEvent) :
    GPState × Option (ℤ × ℤ) :=
  let c := s.received_event_count + 1
  if (c % accept_every_nth_event == 0) && eventMatches e then
    let lx := if e.code == 2 then e.value - 2 ^ 15 else s.lastX
    let ly := if e.code == 2 then s.lastY else e.value - 2 ^ 15
    (⟨c, lx, ly⟩, some (lx, ly))
  else (⟨c, s.lastX, s.lastY⟩, none)

/-- Folding `gamepadStep` over a list of incoming events, collecting the
published vectors in order. -/
def gamepadRun (accept_every_nth_event : ℕ) (s : GPState) :
    List GEvent → GPState × List (ℤ × ℤ)
  | [] => (s, [])
  | e :: rest =>
    let p := gamepadStep accept_every_nth_event s e
    let q := gamepadRun accept_every_nth_event p.1 rest
    (q.1, p.2.toList ++ q.2)

/-- The per-instance inversion flags of a `Gamepad`. -/
structure GamepadReadCfg where
  invert_x : Bool
  invert_y : Bool

/-- `Gamepad.get_xy_vector_from_queue` on the queue contents: `none` on an
empty queue (non-blocking read), otherwise the front vector with the
configured axis inversions applied at read time. -/
def get_xy_vector_from_queue (cfg : GamepadReadCfg) (queue : List (ℤ × ℤ)) :
    Option (ℤ × ℤ) :=
  match queue with
  | [] => none
  | v :: _ =>
    some (if cfg.invert_x then -v.1 else v.1, if cfg.invert_y then -v.2 else v.2)

/-! ### `Tadpole.run` (Drive Coordinator)

The loop reads `battery_guard.is_battery_ok` at exactly two places: the
outer `if` and the inner standby `while` condition.  Each step of the
machine below consumes the flag value that the read at the current
location returns (`fetch` performs no read and ignores it).  Vectors
produced by the Gamepad thread in the interim arrive as `arrivals` and are
appended to the queue before the step acts. -/

/-- Control location inside one iteration of `Tadpole.run`: `top` is the
outer `if not is_battery_ok` check, `standby` the inner `while` check,
`fetch` the non-blocking read plus `handle_vector_input`.  `halted` stands
for a crashed thread (unreachable: `handle_vector_input` only raises on an
out-of-range angle). -/
inductive DLoc
  | top
  | standby
  | fetch
  | halted
  deriving DecidableEq

/-- One environment input to the coordinator: the current value of the
shared `is_battery_ok` flag and the vectors newly queued by the Gamepad
thread. -/
structure DriveIn where
  ok : Bool
  arrivals : List (ℤ × ℤ)

/-- Observable motor commands issued by the coordinator:
`MotorController.stop` (both motors) or the pair of
`change_throttle` values from `handle_vector_input`. -/
inductive DriveCmd
  | stopMotors
  | setThrottle (left right : ℝ)

/-- Coordinator state: control location plus the vector queue contents. -/
structure DState where
  loc : DLoc
  queue : List (ℤ × ℤ)

/-- One step of `Tadpole.run`.  At `top`, a false flag stops both motors
and enters standby; at `standby`, a false flag performs the blocking
(discarding) queue read; a true flag falls through to the non-blocking
fetch, which applies the shaped throttles of the head vector, if any. -/
noncomputable def driveStep (cfg : MCConfig) (s : DState) (inp : DriveIn) :
    DState × List DriveCmd :=
  let q := s.queue ++ inp.arrivals
  match s.loc with
  | DLoc.top =>
    if inp.ok then (⟨DLoc.fetch, q⟩, [])
    else (⟨DLoc.standby, q⟩, [DriveCmd.stopMotors])
  | DLoc.standby =>
    if inp.ok then (⟨DLoc.fetch, q⟩, [])
    else
      match q with
      | [] => (⟨DLoc.standby, []⟩, [])
      | _ :: rest => (⟨DLoc.standby, rest⟩, [])
  | DLoc.fetch =>
    match q with
    | [] => (⟨DLoc.top, []⟩, [])
    | v :: rest =>
      match handle_vector_input cfg v with
      | Except.ok (some (l, r)) => (⟨DLoc.top, rest⟩, [DriveCmd.setThrottle l r])
      | _ => (⟨DLoc.halted, rest⟩, [])
  | DLoc.halted => (⟨DLoc.halted, q⟩, [])

/-- Folding `driveStep` over a list of environment inputs, collecting the
issued motor commands in order. -/
noncomputable def driveRun (cfg : MCConfig) : DState → List DriveIn → DState × List DriveCmd
  | s, [] => (s, [])
  | s, i :: rest =>
    let p := driveStep cfg s i
    let q := driveRun cfg p.1 rest
    (q.1, p.2 ++ q.2)

end Tadpole

namespace Tadpole

section ThrottleShaperLemmas

variable {α : Type*} [LinearOrderedField α]

lemma leftModBranches_bounds {a x : α} (hx : leftModBranches a = some x) :
    -1 ≤ x ∧ x ≤ 1 := by
  have h45 : (0 : α) < 45 := by norm_num
  unfold leftModBranches at hx
  split_ifs at hx with h1 h2 h3 h4
  · cases hx
    constructor <;> norm_num
  · cases hx
    constructor
    · have : (-2 : α) ≤ a / 45 := (le_div_iff₀ h45).mpr (by linarith [h2.1])
      linarith
    · have : a / 45 ≤ 0 := (div_le_iff₀ h45).mpr (by linarith [h2.2])
      linarith
  · cases hx
    constructor <;> norm_num
  · cases hx
    constructor
    · have : a / 45 ≤ 4 := (div_le_iff₀ h45).mpr (by linarith [h4.2])
      linarith
    · have : (2 : α) ≤ a / 45 := (le_div_iff₀ h45).mpr (by linarith [h4.1])
      linarith

lemma rightModBranches_bounds {a x : α} (hx : rightModBranches a = some x) :
    -1 ≤ x ∧ x ≤ 1 := by
  have h45 : (0 : α) < 45 := by norm_num
  unfold rightModBranches at hx
  split_ifs at hx with h1 h2 h3 h4
  · cases hx
    constructor
    · have : (2 : α) ≤ -a / 45 := (le_div_iff₀ h45).mpr (by linarith [h1.2])
      linarith
    · have : -a / 45 ≤ 4 := (div_le_iff₀ h45).mpr (by linarith [h1.1])
      linarith
  · cases hx
    constructor <;> norm_num
  · cases hx
    constructor
    · have : (0 : α) ≤ a / 45 := (le_div_iff₀ h45).mpr (by linarith [h3.1])
      linarith
    · have : a / 45 ≤ 2 := (div_le_iff₀ h45).mpr (by linarith [h3.2])
      linarith
  · cases hx
    constructor <;> norm_num

lemma leftModBranches_some {a : α} (h1 : -180 < a) (h2 : a ≤ 180) :
    ∃ x, leftModBranches a = some x := by
  unfold leftModBranches
  split_ifs with hA hB hC hD
  · exact ⟨_, rfl⟩
  · exact ⟨_, rfl⟩
  · exact ⟨_, rfl⟩
  · exact ⟨_, rfl⟩
  · exfalso
    have k1 : -90 < a := lt_of_not_le fun hle => hA ⟨h1, hle⟩
    have k2 : 0 ≤ a := le_of_not_lt fun hlt => hB ⟨k1, hlt⟩
    have k3 : 90 < a := lt_of_not_le fun hle => hC ⟨k2, hle⟩
    exact hD ⟨k3, h2⟩

lemma rightModBranches_some {a : α} (h1 : -180 < a) (h2 : a ≤ 180) :
    ∃ x, rightModBranches a = some x := by
  unfold rightModBranches
  split_ifs with hA hB hC hD
  · exact ⟨_, rfl⟩
  · exact ⟨_, rfl⟩
  · exact ⟨_, rfl⟩
  · exact ⟨_, rfl⟩
  · exfalso
    have k1 : -90 ≤ a := le_of_not_lt fun hlt => hA ⟨h1, hlt⟩
    have k2 : 0 < a := lt_of_not_le fun hle => hB ⟨k1, hle⟩
    have k3 : 90 ≤ a := le_of_not_lt fun hlt => hC ⟨k2, hlt⟩
    exact hD ⟨k3, h2⟩

lemma calc_left_eq_of_in_range {a : α} (h1 : -180 < a) (h2 : a ≤ 180) :
    calc_left_throttle_mod a = Except.ok (leftModBranches a) := by
  unfold calc_left_throttle_mod assertAngleWithinRange
  rw [if_neg]
  rintro (h | h)
  · linarith
  · linarith

lemma calc_right_eq_of_in_range {a : α} (h1 : -180 < a) (h2 : a ≤ 180) :
    calc_right_throttle_mod a = Except.ok (rightModBranches a) := by
  unfold calc_right_throttle_mod assertAngleWithinRange
  rw [if_neg]
  rintro (h | h)
  · linarith
  · linarith

lemma calc_left_ok_bounds {a x : α}
    (h : calc_left_throttle_mod a = Except.ok (some x)) : -1 ≤ x ∧ x ≤ 1 := by
  unfold calc_left_throttle_mod assertAngleWithinRange at h
  split_ifs at h
  exact leftModBranches_bounds (Except.ok.inj h)

lemma exceptIsOk_calc_left (a : α) :
    exceptIsOk (calc_left_throttle_mod a) = decide (-180 < a ∧ a ≤ 180) := by
  unfold calc_left_throttle_mod assertAngleWithinRange
  by_cases h : a ≤ -180 ∨ 180 < a
  · rw [if_pos h]
    have hnot : ¬(-180 < a ∧ a ≤ 180) := by
      rintro ⟨k1, k2⟩
      rcases h with h | h <;> linarith
    simp [exceptIsOk, hnot]
  · rw [if_neg h]
    push_neg at h
    simp [exceptIsOk, h.1, h.2]

lemma exceptIsOk_calc_right (a : α) :
    exceptIsOk (calc_right_throttle_mod a) = decide (-180 < a ∧ a ≤ 180) := by
  unfold calc_right_throttle_mod assertAngleWithinRange
  by_cases h : a ≤ -180 ∨ 180 < a
  · rw [if_pos h]
    have hnot : ¬(-180 < a ∧ a ≤ 180) := by
      rintro ⟨k1, k2⟩
      rcases h with h | h <;> linarith
    simp [exceptIsOk, hnot]
  · rw [if_neg h]
    push_neg at h
    simp [exceptIsOk, h.1, h.2]

lemma roundHalfToEven_neg_small [FloorRing α] {x : α}
    (h1 : -(1 / 2) ≤ x) (h2 : x < 0) : roundHalfToEven x = 0 := by
  have hfloor : ⌊x⌋ = -1 := by
    rw [Int.floor_eq_iff]
    constructor
    · push_cast
      linarith
    · push_cast
      linarith
  simp only [roundHalfToEven, hfloor]
  rcases eq_or_lt_of_le h1 with heq | hlt
  · rw [if_neg (by push_cast; linarith), if_neg (by push_cast; rw [← heq]; norm_num),
      if_neg (by decide)]
    norm_num
  · rw [if_neg (by push_cast; linarith), if_pos (by push_cast; linarith)]
    norm_num

lemma roundHalfToEven_above_one [FloorRing α] {x : α}
    (h1 : 1 < x) (h2 : x < 3 / 2) : roundHalfToEven x = 1 := by
  have hfloor : ⌊x⌋ = 1 := by
    rw [Int.floor_eq_iff]
    constructor <;> push_cast <;> linarith
  simp only [roundHalfToEven, hfloor]
  rw [if_pos (by push_cast; linarith)]

lemma calc_right_ok_bounds {a x : α}
    (h : calc_right_throttle_mod a = Except.ok (some x)) : -1 ≤ x ∧ x ≤ 1 := by
  unfold calc_right_throttle_mod assertAngleWithinRange at h
  split_ifs at h
  exact rightModBranches_bounds (Except.ok.inj h)

/-- C6: `calc_left_throttle_mod` and `calc_right_throttle_mod` raise the
out-of-range `ValueError` exactly when the angle is outside `(-180, 180]`
(in particular at `181` and at `-180`) and return a value, never a clamped
substitute, for every angle inside `(-180, 180]`. -/
theorem modifier_error_iff_out_of_range (a : α) :
    exceptIsOk (calc_left_throttle_mod a) = decide (-180 < a ∧ a ≤ 180)
  ∧ exceptIsOk (calc_right_throttle_mod a) = decide (-180 < a ∧ a ≤ 180)
  ∧ exceptIsOk (calc_left_throttle_mod (181 : α)) = false
  ∧ exceptIsOk (calc_right_throttle_mod (181 : α)) = false
  ∧ exceptIsOk (calc_left_throttle_mod (-180 : α)) = false
  ∧ exceptIsOk (calc_right_throttle_mod (-180 : α)) = false := by
  have h181 : ¬((-180 : α) < 181 ∧ (181 : α) ≤ 180) := by
    rintro ⟨-, k⟩
    norm_num at k
  have hm180 : ¬((-180 : α) < -180 ∧ (-180 : α) ≤ 180) := by
    rintro ⟨k, -⟩
    exact absurd k (lt_irrefl _)
  refine ⟨exceptIsOk_calc_left a, exceptIsOk_calc_right a, ?_, ?_, ?_, ?_⟩
  · rw [exceptIsOk_calc_left]
    exact decide_eq_false h181
  · rw [exceptIsOk_calc_right]
    exact decide_eq_false h181
  · rw [exceptIsOk_calc_left]
    exact decide_eq_false hm180
  · rw [exceptIsOk_calc_right]
    exact decide_eq_false hm180

/-- C7: for every angle in `(-180, 180]` both modifier functions return a
value lying in `[-1, 1]`. -/
theorem modifiers_bounded (a : α) (h1 : -180 < a) (h2 : a ≤ 180) :
    ∃ l r : α, calc_left_throttle_mod a = Except.ok (some l)
      ∧ calc_right_throttle_mod a = Except.ok (some r)
      ∧ -1 ≤ l ∧ l ≤ 1 ∧ -1 ≤ r ∧ r ≤ 1 := by
  obtain ⟨l, hl⟩ := leftModBranches_some h1 h2
  obtain ⟨r, hr⟩ := rightModBranches_some h1 h2
  obtain ⟨hl1, hl2⟩ := leftModBranches_bounds hl
  obtain ⟨hr1, hr2⟩ := rightModBranches_bounds hr
  exact ⟨l, r, by rw [calc_left_eq_of_in_range h1 h2, hl],
    by rw [calc_right_eq_of_in_range h1 h2, hr], hl1, hl2, hr1, hr2⟩

/-- Witness for C7 at angle `0`. -/
theorem modifiers_bounded_witness :
    (-180 : ℚ) < 0 ∧ (0 : ℚ) ≤ 180 ∧
    ∃ l r : ℚ, calc_left_throttle_mod (0 : ℚ) = Except.ok (some l)
      ∧ calc_right_throttle_mod (0 : ℚ) = Except.ok (some r)
      ∧ -1 ≤ l ∧ l ≤ 1 ∧ -1 ≤ r ∧ r ≤ 1 :=
  ⟨by decide, by decide, modifiers_bounded (0 : ℚ) (by decide) (by decide)⟩

/-- C8: whenever both `a` and `-a` lie in `(-180, 180]`, the right
modifier at `a` is the negation of the left modifier at `-a`. -/
theorem right_mod_point_symmetric (a : α)
    (h1 : -180 < a) (h2 : a ≤ 180) (h3 : -180 < -a) (h4 : -a ≤ 180) :
    ∃ l r : α, calc_left_throttle_mod (-a) = Except.ok (some l)
      ∧ calc_right_throttle_mod a = Except.ok (some r)
      ∧ r = -l := by
  have ha : a < 180 := by linarith
  rcases lt_or_le a (-90) with hA | hA
  · -- band (-180, -90)
    have hr : rightModBranches a = some (-a / 45 - 3) := by
      unfold rightModBranches
      split_ifs with g1 g2 g3 g4
      · rfl
      all_goals exact absurd ⟨h1, hA⟩ g1
    have hl : leftModBranches (-a) = some (-(-a) / 45 + 3) := by
      unfold leftModBranches
      split_ifs with g1 g2 g3 g4
      · exact absurd g1.2 (by push_neg; linarith)
      · exact absurd g2.2 (by push_neg; linarith)
      · exact absurd g3.2 (by push_neg; linarith)
      · rfl
      · exact absurd ⟨by linarith, by linarith⟩ g4
    refine ⟨-(-a) / 45 + 3, -a / 45 - 3,
      by rw [calc_left_eq_of_in_range h3 h4, hl],
      by rw [calc_right_eq_of_in_range h1 h2, hr], by ring⟩
  rcases le_or_lt a 0 with hB | hB
  · -- band [-90, 0]
    have hr : rightModBranches a = some (-1) := by
      unfold rightModBranches
      split_ifs with g1 g2 g3 g4
      · exact absurd g1.2 (by push_neg; linarith)
      · rfl
      all_goals exact absurd ⟨hA, hB⟩ g2
    have hl : leftModBranches (-a) = some 1 := by
      unfold leftModBranches
      split_ifs with g1 g2 g3 g4
      · exact absurd g1.2 (by push_neg; linarith)
      · exact absurd g2.2 (by push_neg; linarith)
      · rfl
      all_goals exact absurd ⟨by linarith, by linarith⟩ g3
    exact ⟨1, -1, by rw [calc_left_eq_of_in_range h3 h4, hl],
      by rw [calc_right_eq_of_in_range h1 h2, hr], by ring⟩
  rcases lt_or_le a 90 with hC | hC
  · -- band (0, 90)
    have hr : rightModBranches a = some (a / 45 - 1) := by
      unfold rightModBranches
      split_ifs with g1 g2 g3 g4
      · exact absurd g1.2 (by push_neg; linarith)
      · exact absurd g2.2 (by push_neg; linarith)
      · rfl
      all_goals exact absurd ⟨hB, hC⟩ g3
    have hl : leftModBranches (-a) = some (-a / 45 + 1) := by
      unfold leftModBranches
      split_ifs with g1 g2 g3 g4
      · exact absurd g1.2 (by push_neg; linarith)
      · rfl
      all_goals exact absurd ⟨by linarith, by linarith⟩ g2
    refine ⟨-a / 45 + 1, a / 45 - 1,
      by rw [calc_left_eq_of_in_range h3 h4, hl],
      by rw [calc_right_eq_of_in_range h1 h2, hr], by ring⟩
  · -- band [90, 180)
    have hr : rightModBranches a = some 1 := by
      unfold rightModBranches
      split_ifs with g1 g2 g3 g4
      · exact absurd g1.2 (by push_neg; linarith)
      · exact absurd g2.2 (by push_neg; linarith)
      · exact absurd g3.2 (by push_neg; linarith)
      · rfl
      · exact absurd ⟨hC, h2⟩ g4
    have hl : leftModBranches (-a) = some (-1) := by
      unfold leftModBranches
      split_ifs with g1 g2 g3 g4
      · rfl
      all_goals exact absurd ⟨by linarith, by linarith⟩ g1
    exact ⟨-1, 1, by rw [calc_left_eq_of_in_range h3 h4, hl],
      by rw [calc_right_eq_of_in_range h1 h2, hr], by ring⟩

/-- Witness for C8 at angle `45`. -/
theorem right_mod_point_symmetric_witness :
    (-180 : ℚ) < 45 ∧ (45 : ℚ) ≤ 180 ∧ (-180 : ℚ) < -45 ∧ (-45 : ℚ) ≤ 180 ∧
    ∃ l r : ℚ, calc_left_throttle_mod (-(45 : ℚ)) = Except.ok (some l)
      ∧ calc_right_throttle_mod (45 : ℚ) = Except.ok (some r)
      ∧ r = -l :=
  ⟨by decide, by decide, by decide, by decide,
    right_mod_point_symmetric (45 : ℚ) (by decide) (by decide) (by decide) (by decide)⟩

end ThrottleShaperLemmas

section CurveTheorems

variable {α : Type*} [LinearOrderedField α] [FloorRing α]

/-- C2 (amended): `apply_throttle_curve t` is the cubic when the cubic's
value lies in `[0, 1]` and otherwise is that value rounded to the nearest
integer (Python `round`, ties to even) — which is the nearer of `{0, 1}`
only while the cubic's value stays in `[-1/2, 3/2)`. -/
theorem curve_rounding_amended (t : α) :
    apply_throttle_curve t =
      (if 0 ≤ throttle_curve_poly t ∧ throttle_curve_poly t ≤ 1 then throttle_curve_poly t
       else ((roundHalfToEven (throttle_curve_poly t) : ℤ) : α))
  ∧ (-(1 / 2) ≤ throttle_curve_poly t → throttle_curve_poly t < 3 / 2 →
      apply_throttle_curve t =
        if throttle_curve_poly t < 0 then 0
        else if throttle_curve_poly t ≤ 1 then throttle_curve_poly t else 1) := by
  constructor
  · unfold apply_throttle_curve
    by_cases h : 0 ≤ throttle_curve_poly t ∧ throttle_curve_poly t ≤ 1
    · rw [if_neg (not_not_intro h), if_pos h]
    · rw [if_pos h, if_neg h]
  · intro hlo hhi
    unfold apply_throttle_curve
    by_cases h : 0 ≤ throttle_curve_poly t ∧ throttle_curve_poly t ≤ 1
    · rw [if_neg (not_not_intro h), if_neg (not_lt.mpr h.1), if_pos h.2]
    · rw [if_pos h]
      rcases not_and_or.mp h with h0 | h1
      · have hneg : throttle_curve_poly t < 0 := lt_of_not_le h0
        rw [if_pos hneg, roundHalfToEven_neg_small hlo hneg]
        norm_num
      · have hgt : 1 < throttle_curve_poly t := lt_of_not_le h1
        rw [if_neg (not_lt.mpr (le_of_lt (lt_trans zero_lt_one hgt))),
          if_neg (not_le.mpr hgt), roundHalfToEven_above_one hgt hhi]
        norm_num

/-- Counterexample for C2 as stated: at `t = 2` the cubic evaluates to
`2.1111098`, which leaves `[0, 1]`, yet `apply_throttle_curve` returns
`2`, which is neither `0` nor `1`. -/
theorem curve_rounding_counterexample :
    ¬(0 ≤ throttle_curve_poly (2 : ℚ) ∧ throttle_curve_poly (2 : ℚ) ≤ 1)
  ∧ apply_throttle_curve (2 : ℚ) = 2
  ∧ apply_throttle_curve (2 : ℚ) ≠ 0
  ∧ apply_throttle_curve (2 : ℚ) ≠ 1 := by
  have hp : throttle_curve_poly (2 : ℚ) = 21111098 / 10000000 := by
    norm_num [throttle_curve_poly]
  have hr : roundHalfToEven (throttle_curve_poly (2 : ℚ)) = 2 := by
    rw [hp]
    have hfloor : ⌊(21111098 / 10000000 : ℚ)⌋ = 2 := by
      rw [Int.floor_eq_iff]
      norm_num
    simp only [roundHalfToEven, hfloor]
    rw [if_pos (by norm_num)]
  have happ : apply_throttle_curve (2 : ℚ) = 2 := by
    unfold apply_throttle_curve
    rw [if_pos (by rw [hp]; norm_num), hr]
    norm_num
  refine ⟨by rw [hp]; norm_num, happ, by rw [happ]; norm_num, by rw [happ]; norm_num⟩

/-- Witness for C2 (amended) at `t = 1/2`, where the cubic evaluates to
`0.2777777`. -/
theorem curve_rounding_amended_witness :
    (apply_throttle_curve ((1 : ℚ) / 2) =
      (if 0 ≤ throttle_curve_poly ((1 : ℚ) / 2) ∧ throttle_curve_poly ((1 : ℚ) / 2) ≤ 1
       then throttle_curve_poly ((1 : ℚ) / 2)
       else ((roundHalfToEven (throttle_curve_poly ((1 : ℚ) / 2)) : ℤ) : ℚ)))
  ∧ (-(1 / 2) ≤ throttle_curve_poly ((1 : ℚ) / 2))
  ∧ (throttle_curve_poly ((1 : ℚ) / 2) < 3 / 2)
  ∧ apply_throttle_curve ((1 : ℚ) / 2) =
      (if throttle_curve_poly ((1 : ℚ) / 2) < 0 then 0
       else if throttle_curve_poly ((1 : ℚ) / 2) ≤ 1 then throttle_curve_poly ((1 : ℚ) / 2)
       else 1) :=
  ⟨(curve_rounding_amended ((1 : ℚ) / 2)).1,
    by norm_num [throttle_curve_poly], by norm_num [throttle_curve_poly],
    (curve_rounding_amended ((1 : ℚ) / 2)).2 (by norm_num [throttle_curve_poly])
      (by norm_num [throttle_curve_poly])⟩

end CurveTheorems

section BatteryTheorems

lemma batteryRun_no_ok_time (timeout : ℚ) :
    ∀ (trace : List (ℕ × ℚ)) (s : BGState), (∀ p ∈ trace, p.1 ≠ 1) →
      (batteryRun timeout s trace).last_ok_time = s.last_ok_time := by
  intro trace
  induction trace with
  | nil => intro s _; rfl
  | cons p rest ih =>
    intro s hall
    have hp : p.1 ≠ 1 := hall p (List.mem_cons_self _ _)
    have hrest : ∀ q ∈ rest, q.1 ≠ 1 := fun q hq => hall q (List.mem_cons_of_mem _ hq)
    show (batteryRun timeout (batteryStep timeout s p.1 p.2) rest).last_ok_time = _
    rw [ih _ hrest]
    unfold batteryStep
    rw [if_neg hp]
    split_ifs
    · rfl
    · rfl

lemma batteryRun_stays_not_ok (timeout : ℚ) :
    ∀ (trace : List (ℕ × ℚ)) (s : BGState), (∀ p ∈ trace, p.1 ≠ 1) →
      s.is_battery_ok = false → (batteryRun timeout s trace).is_battery_ok = false := by
  intro trace
  induction trace with
  | nil => intro s _ hs; exact hs
  | cons p rest ih =>
    intro s hall hs
    have hp : p.1 ≠ 1 := hall p (List.mem_cons_self _ _)
    have hrest : ∀ q ∈ rest, q.1 ≠ 1 := fun q hq => hall q (List.mem_cons_of_mem _ hq)
    show (batteryRun timeout (batteryStep timeout s p.1 p.2) rest).is_battery_ok = false
    apply ih _ hrest
    unfold batteryStep
    rw [if_neg hp]
    split_ifs
    · rfl
    · exact hs

/-- C3: `BatteryGuard.run` transition rules: a reading of 1 immediately
sets the flag and resets the timer to `now`; a reading of 0 clears the
flag only when `now - last_ok_time` exceeds the timeout and otherwise
leaves the state unchanged; hence the flag rises only on a positive
reading and falls only when the time since the last positive reading
exceeds the timeout (the timer being untouched by any run of non-positive
readings). -/
theorem battery_transition_rules (timeout : ℚ) (s : BGState) (reading : ℕ) (now : ℚ) :
    (batteryStep timeout s 1 now = { is_battery_ok := true, last_ok_time := now })
  ∧ (reading = 0 → now - s.last_ok_time ≤ timeout → batteryStep timeout s reading now = s)
  ∧ (reading = 0 → timeout < now - s.last_ok_time →
      batteryStep timeout s reading now
        = { is_battery_ok := false, last_ok_time := s.last_ok_time })
  ∧ ((batteryStep timeout s reading now).is_battery_ok = true →
      s.is_battery_ok = false → reading = 1)
  ∧ ((batteryStep timeout s reading now).is_battery_ok = false →
      s.is_battery_ok = true → reading = 0 ∧ timeout < now - s.last_ok_time)
  ∧ (∀ trace : List (ℕ × ℚ), (∀ p ∈ trace, p.1 ≠ 1) →
      (batteryRun timeout s trace).last_ok_time = s.last_ok_time) := by
  refine ⟨?_, ?_, ?_, ?_, ?_, fun trace h => batteryRun_no_ok_time timeout trace s h⟩
  · unfold batteryStep
    rw [if_pos rfl]
  · intro h0 hle
    subst h0
    unfold batteryStep
    rw [if_neg (by norm_num), if_neg (by rintro ⟨-, k⟩; exact absurd k (not_lt.mpr hle))]
  · intro h0 hgt
    subst h0
    unfold batteryStep
    rw [if_neg (by norm_num), if_pos ⟨rfl, hgt⟩]
  · intro hres hfalse
    by_cases h1 : reading = 1
    · exact h1
    · exfalso
      unfold batteryStep at hres
      rw [if_neg h1] at hres
      by_cases h2 : reading = 0 ∧ now - s.last_ok_time > timeout
      · rw [if_pos h2] at hres
        simp at hres
      · rw [if_neg h2] at hres
        rw [hres] at hfalse
        simp at hfalse
  · intro hres htrue
    by_cases h1 : reading = 1
    · exfalso
      subst h1
      unfold batteryStep at hres
      rw [if_pos rfl] at hres
      simp at hres
    · unfold batteryStep at hres
      rw [if_neg h1] at hres
      by_cases h2 : reading = 0 ∧ now - s.last_ok_time > timeout
      · exact h2
      · rw [if_neg h2] at hres
        rw [hres] at htrue
        simp at htrue

/-- Witness for C3: with a 5-second timeout and `last_ok_time = 0`, a
0-reading at `now = 4` leaves the ok state unchanged, a 0-reading at
`now = 6` clears it, and a trace of 0-readings never moves the timer. -/
theorem battery_transition_rules_witness :
    ((0 : ℕ) = 0) ∧ ((4 : ℚ) - BGState.last_ok_time ⟨true, 0⟩ ≤ 5)
  ∧ (batteryStep 5 ⟨true, 0⟩ 0 4 = ⟨true, 0⟩)
  ∧ ((5 : ℚ) < 6 - BGState.last_ok_time ⟨true, 0⟩)
  ∧ (batteryStep 5 ⟨true, 0⟩ 0 6 = ⟨false, 0⟩)
  ∧ (∀ p ∈ ([(0, 1), (0, 2)] : List (ℕ × ℚ)), p.1 ≠ 1)
  ∧ ((batteryRun 5 ⟨true, 0⟩ [(0, 1), (0, 2)]).last_ok_time = BGState.last_ok_time ⟨true, 0⟩) :=
  ⟨rfl, by norm_num,
    (battery_transition_rules 5 ⟨true, 0⟩ 0 4).2.1 rfl (by norm_num),
    by norm_num,
    (battery_transition_rules 5 ⟨true, 0⟩ 0 6).2.2.1 rfl (by norm_num),
    by simp,
    (battery_transition_rules 5 ⟨true, 0⟩ 0 4).2.2.2.2.2 [(0, 1), (0, 2)] (by simp)⟩

end BatteryTheorems

section GamepadTheorems

/-- Counterexample for C5 as stated: with `accept_every_nth_event = 2`,
after one non-matching event the first matching event (matching ordinal
`k = 1`, not a multiple of 2) is processed and its vector published —
because the decimation counter counts all received events, not only
matching ones. -/
theorem decimation_counterexample :
    eventMatches ⟨1, 0, 0⟩ = false
  ∧ eventMatches ⟨3, 2, 7⟩ = true
  ∧ (gamepadRun 2 ⟨0, 0, 0⟩ [⟨1, 0, 0⟩, ⟨3, 2, 7⟩]).2 = [(7 - 2 ^ 15, 0)]
  ∧ ¬(2 ∣ 1) := by
  refine ⟨rfl, rfl, ?_, by decide⟩
  rfl

/-- C5 (amended): every received event advances the decimation counter,
and an event is processed (vector published) exactly when its ordinal
among all received events is a multiple of `accept_every_nth_event` and it
passes the type/code filters. -/
theorem decimation_global_counter (N : ℕ) (_hN : 0 < N) (s : GPState) (e : GEvent)
    (evs : List GEvent) :
    ((gamepadStep N s e).2.isSome
        = (((s.received_event_count + 1) % N == 0) && eventMatches e))
  ∧ ((gamepadRun N s evs).1.received_event_count
        = s.received_event_count + evs.length) := by
  constructor
  · by_cases h : (((s.received_event_count + 1) % N == 0) && eventMatches e) = true
    · simp only [gamepadStep]
      rw [if_pos h]
      simp [h]
    · simp only [gamepadStep]
      rw [if_neg h]
      rw [Bool.not_eq_true] at h
      rw [h]
      simp
  · induction evs generalizing s with
    | nil => rfl
    | cons a rest ih =>
      show (gamepadRun N (gamepadStep N s a).1 rest).1.received_event_count = _
      rw [ih]
      simp only [gamepadStep]
      split_ifs <;> simp <;> omega

/-- Witness for C5 (amended) with `N = 2`, one prior event, a matching
event, and a singleton event list. -/
theorem decimation_global_counter_witness :
    0 < 2
  ∧ ((gamepadStep 2 ⟨0, 0, 0⟩ ⟨3, 2, 7⟩).2.isSome
        = ((((0 : ℕ) + 1) % 2 == 0) && eventMatches ⟨3, 2, 7⟩))
  ∧ ((gamepadRun 2 ⟨0, 0, 0⟩ [⟨1, 0, 0⟩]).1.received_event_count = 0 + 1) := by
  have H := decimation_global_counter 2 (by decide) ⟨0, 0, 0⟩ ⟨3, 2, 7⟩ [⟨1, 0, 0⟩]
  exact ⟨by decide, H.1, H.2⟩

end GamepadTheorems

section VectorPipeline

lemma apply_throttle_limiting_abs_le {α : Type*} [LinearOrderedField α] (limit t : α) :
    |apply_throttle_limiting limit t| ≤ |limit| := by
  unfold apply_throttle_limiting copysign
  split_ifs with h1 h2
  · rw [abs_neg, abs_abs]
  · rw [abs_abs]
  · exact le_trans (not_lt.mp h1) (le_abs_self limit)

lemma shapeStages_abs_le (cfg : MCConfig) (t L : ℝ) (hL : cfg.throttle_limit = some L) :
    |shapeStages cfg t| ≤ |L| := by
  simp only [shapeStages, hL]
  exact apply_throttle_limiting_abs_le L _

lemma calc_vector_angle_forward : calc_vector_angle (32768, 0) = 0 := by
  unfold calc_vector_angle
  have h : ((((32768 : ℤ) : ℝ) : ℂ) + (((0 : ℤ) : ℝ) : ℂ) * Complex.I)
      = ((32768 : ℝ) : ℂ) := by
    push_cast
    ring
  rw [h, Complex.arg_ofReal_of_nonneg (by norm_num)]
  simp

lemma calc_vector_angle_up : calc_vector_angle (0, 32768) = 90 := by
  unfold calc_vector_angle
  have h : Complex.arg ((((0 : ℤ) : ℝ) : ℂ) + (((32768 : ℤ) : ℝ) : ℂ) * Complex.I)
      = Real.pi / 2 := by
    rw [Complex.arg_eq_pi_div_two_iff]
    constructor
    · simp
    · simp
  rw [h]
  have hpi := Real.pi_ne_zero
  field_simp
  ring

lemma calc_normalized_vector_length_forward :
    calc_normalized_vector_length (32768, 0) = 1 := by
  simp only [calc_normalized_vector_length]
  have h : Real.sqrt ((((32768 : ℤ) : ℝ)) ^ 2 + (((0 : ℤ) : ℝ)) ^ 2) = 32768 := by
    have : ((((32768 : ℤ) : ℝ)) ^ 2 + (((0 : ℤ) : ℝ)) ^ 2) = (32768 : ℝ) ^ 2 := by
      push_cast
      ring
    rw [this]
    exact Real.sqrt_sq (by norm_num)
  rw [h]
  norm_num

lemma calc_normalized_vector_length_up :
    calc_normalized_vector_length (0, 32768) = 1 := by
  simp only [calc_normalized_vector_length]
  have h : Real.sqrt ((((0 : ℤ) : ℝ)) ^ 2 + (((32768 : ℤ) : ℝ)) ^ 2) = 32768 := by
    have : ((((0 : ℤ) : ℝ)) ^ 2 + (((32768 : ℤ) : ℝ)) ^ 2) = (32768 : ℝ) ^ 2 := by
      push_cast
      ring
    rw [this]
    exact Real.sqrt_sq (by norm_num)
  rw [h]
  norm_num

lemma leftModBranches_at_zero : leftModBranches (0 : ℝ) = some 1 := by
  unfold leftModBranches
  rw [if_neg (by rintro ⟨-, k⟩; norm_num at k), if_neg (by rintro ⟨-, k⟩; norm_num at k),
    if_pos ⟨le_refl 0, by norm_num⟩]

lemma rightModBranches_at_zero : rightModBranches (0 : ℝ) = some (-1) := by
  unfold rightModBranches
  rw [if_neg (by rintro ⟨-, k⟩; norm_num at k), if_pos ⟨by norm_num, le_refl 0⟩]

lemma leftModBranches_at_ninety : leftModBranches (90 : ℝ) = some 1 := by
  unfold leftModBranches
  rw [if_neg (by rintro ⟨-, k⟩; norm_num at k), if_neg (by rintro ⟨-, k⟩; norm_num at k),
    if_pos ⟨by norm_num, le_refl 90⟩]

lemma rightModBranches_at_ninety : rightModBranches (90 : ℝ) = some 1 := by
  unfold rightModBranches
  rw [if_neg (by rintro ⟨-, k⟩; norm_num at k), if_neg (by rintro ⟨-, k⟩; norm_num at k),
    if_neg (by rintro ⟨-, k⟩; norm_num at k), if_pos ⟨le_refl 90, by norm_num⟩]

/-- Evaluation of the full pipeline on the straight-ahead vector
`(32768, 0)` for a configuration with curve off, gate off, scale `sc` and
limit `L`. -/
lemma handle_forward_eval (sc L : ℝ) :
    handle_vector_input ⟨false, none, sc, some L⟩ (32768, 0) =
      Except.ok (some (apply_throttle_limiting L sc, -(apply_throttle_limiting L sc))) := by
  simp only [handle_vector_input, calc_vector_angle_forward,
    calc_left_eq_of_in_range (by norm_num : (-180 : ℝ) < 0) (by norm_num : (0 : ℝ) ≤ 180),
    calc_right_eq_of_in_range (by norm_num : (-180 : ℝ) < 0) (by norm_num : (0 : ℝ) ≤ 180),
    leftModBranches_at_zero, rightModBranches_at_zero,
    calc_normalized_vector_length_forward, shapeStages]
  norm_num

/-- C4 (amended): when the limiting stage is enabled with limit `L`, both
components handed to the motors are bounded by `|L|` in absolute value —
hence they lie in `[-1, 1]` whenever `|L| ≤ 1` (for example for the
default configuration `L = 1`), but not for arbitrary configurations. -/
theorem shaped_throttle_limit_bound (cfg : MCConfig) (v : ℤ × ℤ) (L l r : ℝ)
    (hL : cfg.throttle_limit = some L)
    (h : handle_vector_input cfg v = Except.ok (some (l, r))) :
    |l| ≤ |L| ∧ |r| ≤ |L|
  ∧ (|L| ≤ 1 → -1 ≤ l ∧ l ≤ 1 ∧ -1 ≤ r ∧ r ≤ 1) := by
  simp only [handle_vector_input] at h
  cases hlm : calc_left_throttle_mod (calc_vector_angle v) with
  | error e =>
    rw [hlm] at h
    simp at h
  | ok lm =>
    cases hrm : calc_right_throttle_mod (calc_vector_angle v) with
    | error e =>
      rw [hlm, hrm] at h
      simp at h
    | ok rm =>
      rw [hlm, hrm] at h
      cases lm with
      | none =>
        simp at h
      | some lmv =>
        cases rm with
        | none =>
          simp at h
        | some rmv =>
          simp only [Except.ok.injEq, Option.some.injEq, Prod.mk.injEq] at h
          obtain ⟨hl', hr'⟩ := h
          subst hl'
          subst hr'
          have hT := shapeStages_abs_le cfg
            (cfg.throttle_scale * calc_normalized_vector_length v) L hL
          have hlb := calc_left_ok_bounds hlm
          have hrb := calc_right_ok_bounds hrm
          have hlabs : |lmv| ≤ 1 := abs_le.mpr ⟨hlb.1, hlb.2⟩
          have hrabs : |rmv| ≤ 1 := abs_le.mpr ⟨hrb.1, hrb.2⟩
          set T := shapeStages cfg (cfg.throttle_scale * calc_normalized_vector_length v)
          have hTl : |T * lmv| ≤ |L| := by
            rw [abs_mul]
            calc |T| * |lmv| ≤ |T| * 1 := by
                  exact mul_le_mul_of_nonneg_left hlabs (abs_nonneg _)
              _ = |T| := mul_one _
              _ ≤ |L| := hT
          have hTr : |T * rmv| ≤ |L| := by
            rw [abs_mul]
            calc |T| * |rmv| ≤ |T| * 1 := by
                  exact mul_le_mul_of_nonneg_left hrabs (abs_nonneg _)
              _ = |T| := mul_one _
              _ ≤ |L| := hT
          refine ⟨hTl, hTr, fun hL1 => ?_⟩
          have h1 := abs_le.mp (le_trans hTl hL1)
          have h2 := abs_le.mp (le_trans hTr hL1)
          exact ⟨h1.1, h1.2, h2.1, h2.2⟩

/-- Counterexample for C4 as stated: with configuration scale 2 and limit
2 (curve and gate off), the straight-ahead vector yields the throttle pair
`(2, -2)`, whose components leave `[-1, 1]`. -/
theorem shaped_throttle_unit_counterexample :
    handle_vector_input ⟨false, none, 2, some 2⟩ (32768, 0) = Except.ok (some (2, -2))
  ∧ ¬((2 : ℝ) ≤ 1) := by
  constructor
  · have h := handle_forward_eval 2 2
    have hlim : apply_throttle_limiting (2 : ℝ) 2 = 2 := by
      unfold apply_throttle_limiting
      rw [show |(2 : ℝ)| = 2 from abs_of_nonneg (by norm_num), if_neg (by norm_num)]
    rw [h, hlim]
  · norm_num

/-- Witness for C4 (amended) with scale 2 and limit `1/2` on the
straight-ahead vector: the limited pair is `(1/2, -(1/2))`, bounded by
`|1/2|`, and since `|1/2| ≤ 1` both components lie in `[-1, 1]`. -/
theorem shaped_throttle_limit_bound_witness :
    (MCConfig.throttle_limit ⟨false, none, 2, some (1 / 2)⟩ = some (1 / 2))
  ∧ handle_vector_input ⟨false, none, 2, some (1 / 2)⟩ (32768, 0)
      = Except.ok (some (1 / 2, -(1 / 2)))
  ∧ |(1 / 2 : ℝ)| ≤ |(1 / 2 : ℝ)| ∧ |(-(1 / 2) : ℝ)| ≤ |(1 / 2 : ℝ)|
  ∧ (|(1 / 2 : ℝ)| ≤ 1)
  ∧ (-1 ≤ (1 / 2 : ℝ) ∧ (1 / 2 : ℝ) ≤ 1 ∧ -1 ≤ (-(1 / 2) : ℝ) ∧ (-(1 / 2) : ℝ) ≤ 1) := by
  have hlim : apply_throttle_limiting ((1 : ℝ) / 2) 2 = 1 / 2 := by
    unfold apply_throttle_limiting copysign
    rw [show |(2 : ℝ)| = 2 from abs_of_nonneg (by norm_num), if_pos (by norm_num),
      if_neg (by norm_num), show |(1 : ℝ) / 2| = 1 / 2 from abs_of_nonneg (by norm_num)]
  have heval : handle_vector_input ⟨false, none, 2, some (1 / 2)⟩ (32768, 0)
      = Except.ok (some (1 / 2, -(1 / 2))) := by
    rw [handle_forward_eval 2 (1 / 2), hlim]
  have H := shaped_throttle_limit_bound ⟨false, none, 2, some (1 / 2)⟩ (32768, 0)
    (1 / 2) (1 / 2) (-(1 / 2)) rfl heval
  have hhalf : |(1 / 2 : ℝ)| ≤ 1 := by
    rw [abs_of_nonneg (by norm_num : (0 : ℝ) ≤ 1 / 2)]
    norm_num
  exact ⟨rfl, heval, H.1, H.2.1, hhalf, H.2.2 hhalf⟩

/-- C9: end to end, the raw vector `(0, -32768)` read through a Vector
Source with y-inversion enabled is consumed as `(0, 32768)`; its angle is
90 degrees and its normalized length exactly 1; both side modifiers at 90
degrees equal 1; and with curve, gate and limit disabled the pipeline hands
both motors the same throttle `scale * 1 = scale` (both driving forward). -/
theorem end_to_end_forward (sc : ℝ) :
    get_xy_vector_from_queue ⟨false, true⟩ [(0, -32768)] = some (0, 32768)
  ∧ calc_vector_angle (0, 32768) = 90
  ∧ calc_normalized_vector_length (0, 32768) = 1
  ∧ calc_left_throttle_mod (90 : ℝ) = Except.ok (some 1)
  ∧ calc_right_throttle_mod (90 : ℝ) = Except.ok (some 1)
  ∧ handle_vector_input ⟨false, none, sc, none⟩ (0, 32768) = Except.ok (some (sc, sc)) := by
  refine ⟨by simp [get_xy_vector_from_queue], calc_vector_angle_up,
    calc_normalized_vector_length_up, ?_, ?_, ?_⟩
  · rw [calc_left_eq_of_in_range (by norm_num) (by norm_num), leftModBranches_at_ninety]
  · rw [calc_right_eq_of_in_range (by norm_num) (by norm_num), rightModBranches_at_ninety]
  · simp only [handle_vector_input, calc_vector_angle_up,
      calc_left_eq_of_in_range (by norm_num : (-180 : ℝ) < 90) (by norm_num : (90 : ℝ) ≤ 180),
      calc_right_eq_of_in_range (by norm_num : (-180 : ℝ) < 90) (by norm_num : (90 : ℝ) ≤ 180),
      leftModBranches_at_ninety, rightModBranches_at_ninety,
      calc_normalized_vector_length_up, shapeStages]
    norm_num

end VectorPipeline

section DriveCoordinator

lemma driveRun_standby_all_false (cfg : MCConfig) :
    ∀ (ins : List DriveIn) (q : List (ℤ × ℤ)), (∀ i ∈ ins, i.ok = false) →
      (driveRun cfg ⟨DLoc.standby, q⟩ ins).2 = []
    ∧ (driveRun cfg ⟨DLoc.standby, q⟩ ins).1.loc = DLoc.standby := by
  intro ins
  induction ins with
  | nil => intro q _; exact ⟨rfl, rfl⟩
  | cons i rest ih =>
    intro q hall
    have hi : i.ok = false := hall i (List.mem_cons_self _ _)
    have hrest : ∀ j ∈ rest, j.ok = false := fun j hj => hall j (List.mem_cons_of_mem _ hj)
    rcases hq : q ++ i.arrivals with _ | ⟨v, tail⟩
    · have := ih [] hrest
      simp only [driveRun, driveStep, hi, hq]
      simpa using this
    · have := ih tail hrest
      simp only [driveRun, driveStep, hi, hq]
      simpa using this

lemma driveRun_top_all_false (cfg : MCConfig) (q : List (ℤ × ℤ)) (ins : List DriveIn)
    (hfalse : ∀ i ∈ ins, i.ok = false) :
    ∀ o ∈ (driveRun cfg ⟨DLoc.top, q⟩ ins).2, o = DriveCmd.stopMotors := by
  rcases ins with _ | ⟨i, rest⟩
  · intro o ho
    simp [driveRun] at ho
  · have hi : i.ok = false := hfalse i (List.mem_cons_self _ _)
    have hrest : ∀ j ∈ rest, j.ok = false := fun j hj => hfalse j (List.mem_cons_of_mem _ hj)
    obtain ⟨h1, -⟩ := driveRun_standby_all_false cfg rest (q ++ i.arrivals) hrest
    intro o ho
    simp only [driveRun, driveStep, hi] at ho
    simp [h1] at ho
    exact ho

/-- C1: whenever `Tadpole.run` reads a false `is_battery_ok` at the top of
an iteration, it immediately stops both motors and — as long as every
subsequent read of the flag keeps returning false — issues no
`set_throttle` command at all (in particular none with nonzero magnitude),
however many vectors arrive in the interim; each standby step consumes the
head of the vector queue and discards it, issuing nothing. -/
theorem standby_no_nonzero_throttle (cfg : MCConfig) (q : List (ℤ × ℤ)) (ins : List DriveIn)
    (hne : ins ≠ []) (hfalse : ∀ i ∈ ins, i.ok = false) :
    (driveRun cfg ⟨DLoc.top, q⟩ ins).2 = [DriveCmd.stopMotors]
  ∧ (driveRun cfg ⟨DLoc.top, q⟩ ins).1.loc = DLoc.standby
  ∧ (∀ (v : ℤ × ℤ) (rest arr : List (ℤ × ℤ)),
      driveStep cfg ⟨DLoc.standby, v :: rest⟩ ⟨false, arr⟩ = (⟨DLoc.standby, rest ++ arr⟩, [])) := by
  rcases ins with _ | ⟨i, rest⟩
  · exact absurd rfl hne
  have hi : i.ok = false := hfalse i (List.mem_cons_self _ _)
  have hrest : ∀ j ∈ rest, j.ok = false := fun j hj => hfalse j (List.mem_cons_of_mem _ hj)
  obtain ⟨h1, h2⟩ := driveRun_standby_all_false cfg rest (q ++ i.arrivals) hrest
  refine ⟨?_, ?_, ?_⟩
  · simp only [driveRun, driveStep, hi]
    simp [h1]
  · simp only [driveRun, driveStep, hi]
    simpa using h2
  · intro v rest' arr
    simp [driveStep]

/-- Witness for C1 with the default motor-controller configuration, one
queued vector, and two false battery reads (one with a vector arriving in
the interim). -/
theorem standby_no_nonzero_throttle_witness :
    (([⟨false, [(1, 2)]⟩, ⟨false, []⟩] : List DriveIn) ≠ [])
  ∧ (∀ i ∈ ([⟨false, [(1, 2)]⟩, ⟨false, []⟩] : List DriveIn), i.ok = false)
  ∧ (driveRun cfgDefault ⟨DLoc.top, [(5, 5)]⟩ [⟨false, [(1, 2)]⟩, ⟨false, []⟩]).2
      = [DriveCmd.stopMotors]
  ∧ (driveRun cfgDefault ⟨DLoc.top, [(5, 5)]⟩ [⟨false, [(1, 2)]⟩, ⟨false, []⟩]).1.loc
      = DLoc.standby := by
  have H := standby_no_nonzero_throttle cfgDefault [(5, 5)]
    [⟨false, [(1, 2)]⟩, ⟨false, []⟩] (by simp) (by simp)
  exact ⟨by simp, by simp, H.1, H.2.1⟩

/-- C10: `BatteryGuard.__init__` sets `is_battery_ok := False`, the flag
stays false until the first positive battery reading, and while the flag
reads false the Drive Coordinator only ever stops the motors — so the
vehicle cannot be driven before battery health is first confirmed. -/
theorem initial_standby (t0 : ℚ) :
    (batteryGuardInit t0).is_battery_ok = false
  ∧ (∀ (timeout : ℚ) (trace : List (ℕ × ℚ)), (∀ p ∈ trace, p.1 ≠ 1) →
      (batteryRun timeout (batteryGuardInit t0) trace).is_battery_ok = false)
  ∧ (∀ (cfg : MCConfig) (q : List (ℤ × ℤ)) (ins : List DriveIn),
      (∀ i ∈ ins, i.ok = false) →
      ∀ o ∈ (driveRun cfg ⟨DLoc.top, q⟩ ins).2, o = DriveCmd.stopMotors) :=
  ⟨rfl, fun timeout trace h => batteryRun_stays_not_ok timeout trace _ h rfl,
   fun cfg q ins h => driveRun_top_all_false cfg q ins h⟩

/-- Witness for C10 at construction time 0, a trace of two 0-readings,
and one false-flag coordinator step. -/
theorem initial_standby_witness :
    (batteryGuardInit 0).is_battery_ok = false
  ∧ (∀ p ∈ ([(0, 1), (0, 7)] : List (ℕ × ℚ)), p.1 ≠ 1)
  ∧ (batteryRun 5 (batteryGuardInit 0) [(0, 1), (0, 7)]).is_battery_ok = false
  ∧ (∀ i ∈ ([⟨false, []⟩] : List DriveIn), i.ok = false)
  ∧ (∀ o ∈ (driveRun cfgDefault ⟨DLoc.top, []⟩ [⟨false, []⟩]).2, o = DriveCmd.stopMotors) := by
  have H := initial_standby 0
  exact ⟨H.1, by simp, H.2.1 5 [(0, 1), (0, 7)] (by simp), by simp,
    H.2.2 cfgDefault [] [⟨false, []⟩] (by simp)⟩

end DriveCoordinator

end Tadpole
